import Mathlib

/-!
Verification of the sales-analysis pipeline (`sales_analysis_streamlit.py`).

The source builds a synthetic transaction dataset (`generate_sample_data`,
lines 17-60), filters it by an inclusive date range and a category subset
(lines 92-96), aggregates it with pandas `groupby` sums (lines 126, 139,
152-155, 192-196, 201), ranks products with `nlargest` (line 155), computes
a year-over-year growth rate (lines 201-209) and exports the filtered rows
with `to_csv(index=False)` (line 219).

The embedding below models dates as day offsets from 2022-01-01 (the
generation window start); `Year`, `Month` and `MonthName` are derived from
the offset exactly as the source derives them from `OrderDate`
(lines 55-58).  Randomness is modelled by injectable draw functions whose
ranges are those of the numpy calls in the source
(`randint(1, 5)`, `uniform(10, 500)`, `uniform(1.5, 3)`).
-/

namespace SalesAnalysis

/-- Month (1-12) of a zero-based day offset within a non-leap year, using
the cumulative month lengths 31, 59, 90, ... of the 2022/2023 calendar. -/
def monthOfYearDay (yd : Nat) : Nat :=
  if yd < 31 then 1
  else if yd < 59 then 2
  else if yd < 90 then 3
  else if yd < 120 then 4
  else if yd < 151 then 5
  else if yd < 181 then 6
  else if yd < 212 then 7
  else if yd < 243 then 8
  else if yd < 273 then 9
  else if yd < 304 then 10
  else if yd < 334 then 11
  else 12

/-- Day of month (1-based) of a zero-based day offset within a non-leap year. -/
def dayOfYearDay (yd : Nat) : Nat :=
  if yd < 31 then yd + 1
  else if yd < 59 then yd - 30
  else if yd < 90 then yd - 58
  else if yd < 120 then yd - 89
  else if yd < 151 then yd - 119
  else if yd < 181 then yd - 150
  else if yd < 212 then yd - 180
  else if yd < 243 then yd - 211
  else if yd < 273 then yd - 242
  else if yd < 304 then yd - 272
  else if yd < 334 then yd - 303
  else yd - 333

/-- Year of a day offset from 2022-01-01 (both 2022 and 2023 have 365 days);
models `df['OrderDate'].dt.year` (source line 56). -/
def dateYear (d : Nat) : Nat := 2022 + d / 365

/-- Month of a day offset from 2022-01-01; models `df['OrderDate'].dt.month`
(source line 57). -/
def dateMonth (d : Nat) : Nat := monthOfYearDay (d % 365)

/-- One sales transaction, the row shape appended at source lines 39-46.
`orderDate` is the day offset from 2022-01-01. -/
structure Txn where
  orderDate : Nat
  productCategory : String
  productName : String
  quantity : Int
  unitPrice : ℚ
  totalSales : ℚ
deriving DecidableEq

/-- The filter parameters supplied by the sidebar (source lines 76-89):
an inclusive date range and a list of selected categories. -/
structure FilterSpec where
  dateFrom : Nat
  dateTo : Nat
  categories : List String

/-- The row predicate of the filter at source lines 92-96:
`(OrderDate >= start) & (OrderDate <= end) & (ProductCategory.isin(selected))`. -/
def keepTxn (s : FilterSpec) (t : Txn) : Bool :=
  decide (s.dateFrom ≤ t.orderDate) && decide (t.orderDate ≤ s.dateTo) &&
    decide (t.productCategory ∈ s.categories)

/-- The filtering step at source lines 92-96 producing `filtered_df`. -/
def filterDs (df : List Txn) (s : FilterSpec) : List Txn :=
  df.filter (keepTxn s)

/-- Total revenue: `filtered_df['TotalSales'].sum()` (source line 104). -/
def totalRevenue (df : List Txn) : ℚ :=
  (df.map Txn.totalSales).sum

/-- Total orders: `len(filtered_df)` (source line 108). -/
def totalOrders (df : List Txn) : Nat :=
  df.length

/-- A fixed example transaction used to instantiate universally quantified
theorems at concrete inputs. -/
def txnA : Txn :=
  { orderDate := 10, productCategory := "Books", productName := "The Alchemist",
    quantity := 2, unitPrice := 50, totalSales := 100 }

/-- A second fixed example transaction (offset 700 is 2023-12-02, a December
day of the window). -/
def txnB : Txn :=
  { orderDate := 700, productCategory := "Electronics", productName := "Laptop",
    quantity := 3, unitPrice := 20, totalSales := 60 }

/-- A concrete two-transaction dataset. -/
def dsAB : List Txn := [txnA, txnB]

/-- A well-formed filter spec covering the full window with two categories. -/
def specAB : FilterSpec :=
  { dateFrom := 0, dateTo := 729, categories := ["Books", "Electronics"] }

/-- A filter spec whose date range is inverted (`date_from > date_to`). -/
def specInverted : FilterSpec :=
  { dateFrom := 5, dateTo := 3, categories := ["Books"] }

/-- A filter spec with an empty category selection. -/
def specNoCats : FilterSpec :=
  { dateFrom := 0, dateTo := 729, categories := [] }

/-- Injectable random draws for one generation run: for each day offset, the
category and product choice, the `randint(1, 5)` quantity, the
`uniform(10, 500)` unit price and the December `uniform(1.5, 3)` quantity
factor (source lines 31-36). -/
structure Draws where
  cat : Nat → String
  pname : Nat → String
  qty : Nat → Int
  price : Nat → ℚ
  decFactor : Nat → ℚ

/-- The range constraints of the numpy draws in `generate_sample_data`:
`randint(1, 5)` yields an integer in [1, 4], `uniform(10, 500)` a value in
[10, 500) and `uniform(1.5, 3)` a value in [1.5, 3). -/
def ValidDraws (dr : Draws) : Prop :=
  ∀ d : Nat, (1 ≤ dr.qty d ∧ dr.qty d ≤ 4) ∧
    (10 ≤ dr.price d ∧ dr.price d < 500) ∧
    (3 / 2 ≤ dr.decFactor d ∧ dr.decFactor d < 3)

/-- One generated row (source lines 30-46): in December the quantity is
multiplied by the seasonal factor and truncated,
`quantity = int(quantity * uniform(1.5, 3))` (line 36, truncation equals
floor on positive values), before `total_sales = quantity * unit_price`
(line 37) is computed. -/
def mkTxn (dr : Draws) (d : Nat) : Txn :=
  let q0 := dr.qty d
  let q : Int := if dateMonth d = 12 then ⌊(q0 : ℚ) * dr.decFactor d⌋ else q0
  { orderDate := d, productCategory := dr.cat d, productName := dr.pname d,
    quantity := q, unitPrice := dr.price d, totalSales := (q : ℚ) * dr.price d }

/-- The raw generated dataset: one row per day of
`pd.date_range('2022-01-01', '2023-12-31')`, i.e. day offsets 0..729
(source lines 19, 29-46; 2022 and 2023 are non-leap years, 730 days). -/
def rawData (dr : Draws) : List Txn :=
  (List.range 730).map (mkTxn dr)

/-- Recursion for `df.drop_duplicates()` (source line 51): keep the first
occurrence of each distinct row; `seen` holds the rows already emitted. -/
def dropDupsFrom [DecidableEq α] (seen : List α) : List α → List α
  | [] => []
  | x :: xs =>
    if x ∈ seen then dropDupsFrom seen xs else x :: dropDupsFrom (x :: seen) xs

/-- `df.drop_duplicates()` (source line 51) applied to the whole dataset. -/
def dropDuplicates [DecidableEq α] (l : List α) : List α :=
  dropDupsFrom [] l

/-- The cleaning pass (source lines 51-52): drop exact duplicates, then keep
rows with `Quantity > 0` and `UnitPrice > 0`. -/
def cleanData (dr : Draws) : List Txn :=
  (dropDuplicates (rawData dr)).filter
    (fun t => decide (0 < t.quantity) && decide (0 < t.unitPrice))

/-- Constant draws inside all numpy ranges, used to instantiate generation
theorems at a concrete input. -/
def drawsC : Draws :=
  { cat := fun _ => "Electronics", pname := fun _ => "Laptop",
    qty := fun _ => 2, price := fun _ => 10, decFactor := fun _ => 3 / 2 }

/-- Stable insertion into an ascending-sorted list, used to model the
ascending group-key order produced by pandas `groupby` (default
`sort=True`). -/
def insertAsc [LinearOrder α] (x : α) : List α → List α
  | [] => [x]
  | y :: ys => if x ≤ y then x :: y :: ys else y :: insertAsc x ys

/-- Ascending sort by repeated insertion. -/
def sortAsc [LinearOrder α] : List α → List α
  | [] => []
  | x :: xs => insertAsc x (sortAsc xs)

/-- The distinct group keys of a dataset under a key function, in ascending
order: pandas `groupby` groups by the distinct key values and sorts them. -/
def groupKeys [LinearOrder α] [DecidableEq α] (key : Txn → α) (df : List Txn) :
    List α :=
  sortAsc (dropDuplicates (df.map key))

/-- `filtered_df.groupby(key)['TotalSales'].sum()` (source lines 126, 139,
201): the ascending-key list of per-group `TotalSales` sums. -/
def groupTotals [LinearOrder α] [DecidableEq α] (key : Txn → α) (df : List Txn) :
    List (α × ℚ) :=
  (groupKeys key df).map fun k =>
    (k, totalRevenue (df.filter fun t => decide (key t = k)))

/-- `yearly_sales = filtered_df.groupby('Year')['TotalSales'].sum()`
(source line 201). -/
def yearlyTotals (df : List Txn) : List (Nat × ℚ) :=
  groupTotals (fun t => dateYear t.orderDate) df

/-- The growth analysis at source lines 201-209: with at least two yearly
groups the code computes
`(yearly_sales.iloc[-1] - yearly_sales.iloc[-2]) / yearly_sales.iloc[-2] * 100`;
otherwise it reports the not-enough-data sentinel, modelled as `none`. -/
def yoyGrowth (df : List Txn) : Option ℚ :=
  match (yearlyTotals df).reverse with
  | a :: b :: _ => some ((a.2 - b.2) / b.2 * 100)
  | _ => none

/-- Stable insertion into a list sorted descending by the measure component:
a new element goes in front of the first element whose measure does not
exceed its own, so on ties the earlier element stays first (the behaviour
of pandas `nlargest` with the default `keep='first'`). -/
def insertDesc [LinearOrder κ] (x : κ × ℚ) : List (κ × ℚ) → List (κ × ℚ)
  | [] => [x]
  | y :: ys => if y.2 ≤ x.2 then x :: y :: ys else y :: insertDesc x ys

/-- Stable descending sort of an aggregate view by the measure component. -/
def sortDesc [LinearOrder κ] : List (κ × ℚ) → List (κ × ℚ)
  | [] => []
  | x :: xs => insertDesc x (sortDesc xs)

/-- `view.nlargest(n, measure)` (source line 155): the first `n` rows of the
stable descending sort of the aggregate view by the chosen measure; in the
source the group keys are the product names. -/
def nlargest [LinearOrder κ] (n : Nat) (view : List (κ × ℚ)) : List (κ × ℚ) :=
  (sortDesc view).take n

/-- Two-digit zero padding for month and day numbers in date rendering. -/
def pad2 (n : Nat) : String :=
  if n < 10 then "0" ++ toString n else toString n

/-- The `OrderDate` column rendering of a day offset, `YYYY-MM-DD`. -/
def dateStr (d : Nat) : String :=
  toString (dateYear d) ++ "-" ++ pad2 (dateMonth d) ++ "-" ++
    pad2 (dayOfYearDay (d % 365))

/-- The `YearMonth` period column rendering of a day offset, `YYYY-MM`
(source line 55). -/
def ymStr (d : Nat) : String :=
  toString (dateYear d) ++ "-" ++ pad2 (dateMonth d)

/-- `MonthName` (source line 58): the English month name of a month number. -/
def monthLabel (m : Nat) : String :=
  if m = 1 then "January"
  else if m = 2 then "February"
  else if m = 3 then "March"
  else if m = 4 then "April"
  else if m = 5 then "May"
  else if m = 6 then "June"
  else if m = 7 then "July"
  else if m = 8 then "August"
  else if m = 9 then "September"
  else if m = 10 then "October"
  else if m = 11 then "November"
  else "December"

/-- Rendering of a rational cell value; the abstraction of the source's
float formatting (exact value, precision aside). -/
def ratStr (q : ℚ) : String := toString q

/-- The header row of `filtered_df.to_csv(index=False)` (source line 219):
all ten columns of the frame built at lines 39-58, the six base columns
followed by the four derived temporal columns added at lines 55-58. -/
def csvHeader : List String :=
  ["OrderDate", "ProductCategory", "ProductName", "Quantity", "UnitPrice",
   "TotalSales", "YearMonth", "Year", "Month", "MonthName"]

/-- The exported row of one transaction, in the frame's column order. -/
def txnRow (t : Txn) : List String :=
  [dateStr t.orderDate, t.productCategory, t.productName, toString t.quantity,
   ratStr t.unitPrice, ratStr t.totalSales, ymStr t.orderDate,
   toString (dateYear t.orderDate), toString (dateMonth t.orderDate),
   monthLabel (dateMonth t.orderDate)]

/-- The CSV export as a table of cells: header row first, then one row per
transaction in dataset order (source line 219). -/
def toCsvTable (df : List Txn) : List (List String) :=
  csvHeader :: df.map txnRow

/-- The CSV export as the serialized text: comma-joined cells, newline-joined
rows, trailing newline (pandas `to_csv(index=False)`). -/
def toCsvText (df : List Txn) : String :=
  String.intercalate "\n" ((toCsvTable df).map (String.intercalate ",")) ++ "\n"

/-- A transaction of the year 2022 (offset 0) with total 100000, matching the
spec's worked year-over-year example. -/
def txn2022 : Txn :=
  { orderDate := 0, productCategory := "Books", productName := "Deep Learning",
    quantity := 1, unitPrice := 100000, totalSales := 100000 }

/-- A transaction of the year 2023 (offset 400) with total 130000, matching
the spec's worked year-over-year example. -/
def txn2023 : Txn :=
  { orderDate := 400, productCategory := "Books", productName := "Deep Learning",
    quantity := 1, unitPrice := 130000, totalSales := 130000 }

/-- The two-year concrete dataset of the spec's worked example
`{2022: 100000, 2023: 130000}`. -/
def dsYears : List Txn := [txn2022, txn2023]

/-- A concrete aggregate view with a tie on the measure and strictly
ascending keys (numeric keys standing in for product names). -/
def viewTie : List (Nat × ℚ) :=
  [(1, 5), (2, 9), (3, 5)]

/-- C2 counterexample: on a concrete dataset and a spec with
`date_from > date_to`, the filter at source lines 92-96 runs and returns
the empty dataset; no `InvalidRangeError` exists in the code, so the
claimed failure-before-filtering does not happen. -/
theorem filter_invalid_range_counterexample :
    specInverted.dateTo < specInverted.dateFrom ∧ filterDs dsAB specInverted = [] := by
  constructor
  · decide
  · rfl

/-- C2 (amended): for every dataset and every spec with `date_from > date_to`,
the filter proceeds and returns the empty set, because no transaction can
satisfy both inclusive bounds; the bounds are never swapped. -/
theorem filter_invalid_range_eq_nil (df : List Txn) (s : FilterSpec)
    (h : s.dateTo < s.dateFrom) : filterDs df s = [] := by
  refine List.filter_eq_nil_iff.mpr ?_
  intro t _ hkeep
  simp only [keepTxn, Bool.and_eq_true, decide_eq_true_eq] at hkeep
  omega

/-- C2 witness: the amended statement at a concrete input. -/
theorem filter_invalid_range_eq_nil_witness :
    filterDs dsAB specInverted = [] :=
  filter_invalid_range_eq_nil dsAB specInverted (by decide)

/-- C4: a transaction is in the filtered result iff it is in the dataset,
its order date lies within the inclusive bounds, and its category is
selected; and an empty category selection yields the empty result for any
date range (source lines 92-96). -/
theorem filter_membership_spec (df : List Txn) (s : FilterSpec) :
    (s.dateFrom ≤ s.dateTo →
      ∀ t : Txn, t ∈ filterDs df s ↔
        t ∈ df ∧ s.dateFrom ≤ t.orderDate ∧ t.orderDate ≤ s.dateTo ∧
          t.productCategory ∈ s.categories) ∧
    (s.categories = [] → filterDs df s = []) := by
  constructor
  · intro _ t
    simp [filterDs, keepTxn, List.mem_filter, and_assoc]
  · intro hcats
    refine List.filter_eq_nil_iff.mpr ?_
    intro t _ hkeep
    simp only [keepTxn, hcats, Bool.and_eq_true, decide_eq_true_eq] at hkeep
    exact absurd hkeep.2 (List.not_mem_nil _)

/-- C4 witness: membership and the empty-categories case at concrete inputs. -/
theorem filter_membership_spec_witness :
    (txnA ∈ filterDs dsAB specAB ↔
      txnA ∈ dsAB ∧ specAB.dateFrom ≤ txnA.orderDate ∧
        txnA.orderDate ≤ specAB.dateTo ∧ txnA.productCategory ∈ specAB.categories) ∧
    filterDs dsAB specNoCats = [] :=
  ⟨(filter_membership_spec dsAB specAB).1 (by decide) txnA,
   (filter_membership_spec dsAB specNoCats).2 rfl⟩

/-- C8: filtering is idempotent — applying the same filter spec twice gives
the same result as applying it once (source lines 92-96). -/
theorem filter_idempotent (df : List Txn) (s : FilterSpec)
    (_h : s.dateFrom ≤ s.dateTo) :
    filterDs (filterDs df s) s = filterDs df s := by
  simp [filterDs, List.filter_filter]

/-- C8 witness: idempotence at a concrete dataset and valid spec. -/
theorem filter_idempotent_witness :
    filterDs (filterDs dsAB specAB) specAB = filterDs dsAB specAB :=
  filter_idempotent dsAB specAB (by decide)

/-- C1: at the failing input (a filter that keeps nothing, e.g. an empty
category selection) the code reaches `avg_order_value = total_sales /
total_orders` (source line 112) with `total_orders = 0` and
`total_revenue = 0`; there is no guard and no `DivisionUndefinedError`
in the code, so the division `0.0 / 0` is performed. -/
theorem avg_order_value_zero_denominator :
    totalOrders (filterDs dsAB specNoCats) = 0 ∧
      totalRevenue (filterDs dsAB specNoCats) = 0 := by
  constructor <;> rfl

/-- Dropping duplicates leaves a list unchanged when it has no duplicates
and no element was seen before. -/
theorem dropDupsFrom_eq_self [DecidableEq α] :
    ∀ (l seen : List α), l.Nodup → (∀ x ∈ l, x ∉ seen) → dropDupsFrom seen l = l := by
  intro l
  induction l with
  | nil => intro seen _ _; rfl
  | cons x xs ih =>
    intro seen hnd hsn
    have hx : x ∉ seen := hsn x (List.mem_cons_self x xs)
    simp only [dropDupsFrom, if_neg hx]
    refine congrArg (x :: ·) (ih (x :: seen) (List.Nodup.of_cons hnd) ?_)
    intro y hy
    simp only [List.mem_cons, not_or]
    exact ⟨fun h => (List.nodup_cons.mp hnd).1 (h ▸ hy), hsn y (List.mem_cons_of_mem x hy)⟩

/-- Dropping duplicates from a duplicate-free list is the identity. -/
theorem dropDuplicates_eq_self [DecidableEq α] (l : List α) (h : l.Nodup) :
    dropDuplicates l = l :=
  dropDupsFrom_eq_self l [] h (fun x _ => List.not_mem_nil x)

/-- The order date of a generated row is its day offset. -/
theorem mkTxn_orderDate (dr : Draws) (d : Nat) : (mkTxn dr d).orderDate = d := rfl

/-- The raw generated dataset has no duplicate rows: rows of distinct days
differ in their order date. -/
theorem rawData_nodup (dr : Draws) : (rawData dr).Nodup := by
  refine List.Nodup.map ?_ (List.nodup_range 730)
  intro a b hab
  have := congrArg Txn.orderDate hab
  simpa [mkTxn_orderDate] using this

/-- Every generated row has positive quantity (the December floor keeps it
at least 1 because `quantity * factor ≥ 1 * 1.5`), positive unit price, and
its total is the exact product of quantity and unit price. -/
theorem mkTxn_fields (dr : Draws) (h : ValidDraws dr) (d : Nat) :
    0 < (mkTxn dr d).quantity ∧ 0 < (mkTxn dr d).unitPrice ∧
      (mkTxn dr d).totalSales = ((mkTxn dr d).quantity : ℚ) * (mkTxn dr d).unitPrice := by
  obtain ⟨⟨hq1, _⟩, ⟨hp1, _⟩, hf1, _⟩ := h d
  refine ⟨?_, ?_, rfl⟩
  · simp only [mkTxn]
    split
    · refine Int.lt_iff_add_one_le.mpr ?_
      rw [Int.le_floor]
      have hq1' : (1 : ℚ) ≤ (dr.qty d : ℚ) := by exact_mod_cast hq1
      have hmul : (1 : ℚ) * (3 / 2) ≤ (dr.qty d : ℚ) * dr.decFactor d :=
        mul_le_mul hq1' hf1 (by norm_num) (le_trans zero_le_one hq1')
      push_cast
      linarith
    · exact hq1
  · simp only [mkTxn]
    linarith

/-- Under valid draws the cleaning pass removes nothing: the raw rows are
pairwise distinct and all satisfy the quantity/price positivity filter. -/
theorem cleanData_eq_rawData (dr : Draws) (h : ValidDraws dr) :
    cleanData dr = rawData dr := by
  unfold cleanData
  rw [dropDuplicates_eq_self _ (rawData_nodup dr)]
  refine List.filter_eq_self.mpr ?_
  intro t ht
  obtain ⟨d, _, rfl⟩ := List.mem_map.mp ht
  obtain ⟨hq, hp, _⟩ := mkTxn_fields dr h d
  simp [hq, hp]

/-- ValidDraws holds for the concrete constant draws. -/
theorem drawsC_valid : ValidDraws drawsC := by
  intro d
  refine ⟨⟨?_, ?_⟩, ⟨?_, ?_⟩, ?_, ?_⟩ <;> norm_num [drawsC]

/-- C3: every transaction retained in the generated dataset has positive
quantity and unit price, and its total is exactly quantity times unit
price; the December multiplier is applied before the total is computed, so
the product invariant holds for December rows as well (source lines 33-52). -/
theorem generated_data_invariants (dr : Draws) (h : ValidDraws dr) :
    ∀ t ∈ cleanData dr,
      0 < t.quantity ∧ 0 < t.unitPrice ∧ t.totalSales = (t.quantity : ℚ) * t.unitPrice := by
  rw [cleanData_eq_rawData dr h]
  intro t ht
  obtain ⟨d, _, rfl⟩ := List.mem_map.mp ht
  exact mkTxn_fields dr h d

/-- C3 witness: the invariants at one concrete retained transaction of the
dataset generated from the concrete draws. -/
theorem generated_data_invariants_witness :
    0 < (mkTxn drawsC 0).quantity ∧ 0 < (mkTxn drawsC 0).unitPrice ∧
      (mkTxn drawsC 0).totalSales = ((mkTxn drawsC 0).quantity : ℚ) * (mkTxn drawsC 0).unitPrice :=
  generated_data_invariants drawsC drawsC_valid (mkTxn drawsC 0)
    (by
      rw [cleanData_eq_rawData drawsC drawsC_valid]
      exact List.mem_map_of_mem (mkTxn drawsC) (List.mem_range.mpr (by norm_num)))

/-- C10: under any draws within the numpy ranges (hence in particular for
seed 42), the cleaning pass removes no record: the cleaned dataset equals
the raw one, contains exactly 730 transactions, and all order dates are
distinct (source lines 29-52). -/
theorem clean_keeps_all_730 (dr : Draws) (h : ValidDraws dr) :
    cleanData dr = rawData dr ∧ (cleanData dr).length = 730 ∧
      ((cleanData dr).map Txn.orderDate).Nodup := by
  have heq := cleanData_eq_rawData dr h
  refine ⟨heq, ?_, ?_⟩
  · rw [heq]
    simp [rawData]
  · rw [heq]
    have hmap : (rawData dr).map Txn.orderDate = List.range 730 := by
      unfold rawData
      rw [List.map_map]
      have hcomp : (Txn.orderDate ∘ mkTxn dr) = id := funext fun d => rfl
      rw [hcomp, List.map_id]
    rw [hmap]
    exact List.nodup_range 730

/-- C10 witness: the cleaning pass keeps all 730 rows for the concrete
constant draws. -/
theorem clean_keeps_all_730_witness :
    cleanData drawsC = rawData drawsC ∧ (cleanData drawsC).length = 730 ∧
      ((cleanData drawsC).map Txn.orderDate).Nodup :=
  clean_keeps_all_730 drawsC drawsC_valid

/-- Membership in the duplicate-dropping recursion: an element survives iff
it occurs in the input and was not already seen. -/
theorem mem_dropDupsFrom [DecidableEq α] (z : α) :
    ∀ (l seen : List α), z ∈ dropDupsFrom seen l ↔ z ∈ l ∧ z ∉ seen := by
  intro l
  induction l with
  | nil => intro seen; simp [dropDupsFrom]
  | cons x xs ih =>
    intro seen
    by_cases hx : x ∈ seen
    · rw [dropDupsFrom, if_pos hx, ih]
      constructor
      · rintro ⟨hz, hzs⟩
        exact ⟨List.mem_cons_of_mem x hz, hzs⟩
      · rintro ⟨hz, hzs⟩
        rcases List.mem_cons.mp hz with rfl | hz
        · exact absurd hx hzs
        · exact ⟨hz, hzs⟩
    · rw [dropDupsFrom, if_neg hx]
      simp only [List.mem_cons, ih, not_or]
      constructor
      · rintro (rfl | ⟨hz, hzx, hzs⟩)
        · exact ⟨Or.inl rfl, hx⟩
        · exact ⟨Or.inr hz, hzs⟩
      · rintro ⟨rfl | hz, hzs⟩
        · exact Or.inl rfl
        · by_cases hzx : z = x
          · exact Or.inl hzx
          · exact Or.inr ⟨hz, hzx, hzs⟩

/-- An element survives duplicate removal iff it occurs in the input. -/
theorem mem_dropDuplicates [DecidableEq α] (z : α) (l : List α) :
    z ∈ dropDuplicates l ↔ z ∈ l := by
  rw [dropDuplicates, mem_dropDupsFrom]
  simp

/-- The duplicate-dropping recursion produces a duplicate-free list. -/
theorem dropDupsFrom_nodup [DecidableEq α] :
    ∀ (l seen : List α), (dropDupsFrom seen l).Nodup := by
  intro l
  induction l with
  | nil => intro seen; exact List.nodup_nil
  | cons x xs ih =>
    intro seen
    by_cases hx : x ∈ seen
    · rw [dropDupsFrom, if_pos hx]; exact ih seen
    · rw [dropDupsFrom, if_neg hx]
      refine List.nodup_cons.mpr ⟨?_, ih (x :: seen)⟩
      intro hmem
      exact ((mem_dropDupsFrom x xs (x :: seen)).mp hmem).2 (List.mem_cons_self x seen)

/-- Duplicate removal produces a duplicate-free list. -/
theorem dropDuplicates_nodup [DecidableEq α] (l : List α) :
    (dropDuplicates l).Nodup :=
  dropDupsFrom_nodup l []

/-- Insertion produces a permutation of consing. -/
theorem insertAsc_perm [LinearOrder α] (x : α) :
    ∀ l : List α, List.Perm (insertAsc x l) (x :: l) := by
  intro l
  induction l with
  | nil => exact List.Perm.refl _
  | cons y ys ih =>
    rw [insertAsc]
    split
    · exact List.Perm.refl _
    · exact ((List.perm_cons y).mpr ih).trans (List.Perm.swap x y ys)

/-- Sorting is a permutation of the input. -/
theorem sortAsc_perm [LinearOrder α] :
    ∀ l : List α, List.Perm (sortAsc l) l := by
  intro l
  induction l with
  | nil => exact List.Perm.refl _
  | cons x xs ih =>
    rw [sortAsc]
    exact ((insertAsc_perm x (sortAsc xs)).trans ((List.perm_cons x).mpr ih))

/-- Insertion into an ascending-sorted list keeps it ascending-sorted. -/
theorem insertAsc_pairwise [LinearOrder α] (x : α) :
    ∀ l : List α, l.Pairwise (· ≤ ·) → (insertAsc x l).Pairwise (· ≤ ·) := by
  intro l
  induction l with
  | nil => intro _; simp [insertAsc]
  | cons y ys ih =>
    intro hp
    obtain ⟨hy, hys⟩ := List.pairwise_cons.mp hp
    rw [insertAsc]
    split
    · rename_i hxy
      refine List.pairwise_cons.mpr ⟨?_, hp⟩
      intro a ha
      rcases List.mem_cons.mp ha with rfl | ha
      · exact hxy
      · exact le_trans hxy (hy a ha)
    · rename_i hxy
      refine List.pairwise_cons.mpr ⟨?_, ih hys⟩
      intro a ha
      rcases List.mem_cons.mp ((insertAsc_perm x ys).mem_iff.mp ha) with rfl | ha
      · exact le_of_lt (lt_of_not_le hxy)
      · exact hy a ha

/-- The insertion sort produces an ascending-sorted list. -/
theorem sortAsc_pairwise [LinearOrder α] :
    ∀ l : List α, (sortAsc l).Pairwise (· ≤ ·) := by
  intro l
  induction l with
  | nil => exact List.Pairwise.nil
  | cons x xs ih => exact insertAsc_pairwise x (sortAsc xs) ih

/-- The group keys are duplicate-free. -/
theorem groupKeys_nodup [LinearOrder α] [DecidableEq α] (key : Txn → α)
    (df : List Txn) : (groupKeys key df).Nodup :=
  ((sortAsc_perm (dropDuplicates (df.map key))).symm).nodup
    (dropDuplicates_nodup (df.map key))

/-- The group keys are exactly the key values occurring in the dataset. -/
theorem mem_groupKeys [LinearOrder α] [DecidableEq α] (key : Txn → α)
    (df : List Txn) (k : α) : k ∈ groupKeys key df ↔ k ∈ df.map key := by
  rw [groupKeys, (sortAsc_perm _).mem_iff, mem_dropDuplicates]

/-- The group keys are strictly ascending. -/
theorem groupKeys_sorted [LinearOrder α] [DecidableEq α] (key : Txn → α)
    (df : List Txn) : (groupKeys key df).Pairwise (· < ·) := by
  have hle : (groupKeys key df).Pairwise (· ≤ ·) := sortAsc_pairwise _
  have hne : (groupKeys key df).Pairwise (· ≠ ·) := groupKeys_nodup key df
  exact (hle.and hne).imp fun h => lt_of_le_of_ne h.1 h.2

/-- Splitting a mapped sum by a Boolean predicate on the elements. -/
theorem sum_map_filter_split (f : α → ℚ) (p : α → Bool) :
    ∀ l : List α,
      ((l.filter p).map f).sum + ((l.filter fun a => !p a).map f).sum
        = (l.map f).sum := by
  intro l
  induction l with
  | nil => simp
  | cons x xs ih =>
    by_cases hx : p x
    · simp only [List.filter_cons, hx, if_pos, Bool.not_true, if_neg,
        Bool.false_eq_true, not_false_eq_true, List.map_cons, List.sum_cons]
      linarith
    · simp only [List.filter_cons, hx, Bool.false_eq_true, if_neg,
        not_false_eq_true, Bool.not_false, if_pos, List.map_cons, List.sum_cons]
      linarith

/-- Fiberwise summation: when every element's key lies in a duplicate-free
key list, the sum of the per-key filtered sums equals the total sum. -/
theorem sum_over_groups [DecidableEq κ] (key : α → κ) (f : α → ℚ) :
    ∀ (ks : List κ) (l : List α), ks.Nodup → (∀ x ∈ l, key x ∈ ks) →
      (ks.map fun k => ((l.filter fun x => decide (key x = k)).map f).sum).sum
        = (l.map f).sum := by
  intro ks
  induction ks with
  | nil =>
    intro l _ hcov
    cases l with
    | nil => simp
    | cons x xs => exact absurd (hcov x (List.mem_cons_self x xs)) (List.not_mem_nil _)
  | cons k ks ih =>
    intro l hnd hcov
    have hsplit := sum_map_filter_split f (fun x => decide (key x = k)) l
    have hrest : ∀ j ∈ ks,
        ((l.filter fun x => !decide (key x = k)).filter fun x => decide (key x = j))
          = l.filter fun x => decide (key x = j) := by
      intro j hj
      have hjk : j ≠ k := fun h => (List.nodup_cons.mp hnd).1 (h ▸ hj)
      rw [List.filter_filter]
      refine List.filter_congr ?_
      intro x _
      by_cases hxj : key x = j
      · simp [hxj, hjk]
      · simp [hxj]
    have hcov' : ∀ x ∈ (l.filter fun x => !decide (key x = k)), key x ∈ ks := by
      intro x hx
      obtain ⟨hxl, hxk⟩ := List.mem_filter.mp hx
      rcases List.mem_cons.mp (hcov x hxl) with h | h
      · simp [h] at hxk
      · exact h
    have hih := ih (l.filter fun x => !decide (key x = k))
      (List.nodup_cons.mp hnd).2 hcov'
    rw [List.map_cons, List.sum_cons]
    calc ((l.filter fun x => decide (key x = k)).map f).sum +
          (ks.map fun j => ((l.filter fun x => decide (key x = j)).map f).sum).sum
        = ((l.filter fun x => decide (key x = k)).map f).sum +
          (ks.map fun j =>
            (((l.filter fun x => !decide (key x = k)).filter
              fun x => decide (key x = j)).map f).sum).sum := by
          refine congrArg _ (congrArg List.sum ?_)
          refine (List.map_congr_left ?_)
          intro j hj
          rw [hrest j hj]
      _ = ((l.filter fun x => decide (key x = k)).map f).sum +
          ((l.filter fun x => !decide (key x = k)).map f).sum := by rw [hih]
      _ = (l.map f).sum := hsplit

/-- C7: the sum of the per-category `TotalSales` aggregates over a filtered
dataset equals the direct `TotalSales` sum over that dataset (source
lines 139 and 104). -/
theorem category_sum_consistency (df : List Txn) :
    ((groupTotals Txn.productCategory df).map Prod.snd).sum = totalRevenue df := by
  unfold groupTotals
  rw [List.map_map]
  have hcov : ∀ t ∈ df, t.productCategory ∈ groupKeys Txn.productCategory df := by
    intro t ht
    exact (mem_groupKeys Txn.productCategory df _).mpr (List.mem_map_of_mem _ ht)
  exact sum_over_groups Txn.productCategory Txn.totalSales
    (groupKeys Txn.productCategory df) df
    (groupKeys_nodup Txn.productCategory df) hcov

/-- A mapped sum of nonnegative values is nonnegative. -/
theorem sum_map_nonneg (f : α → ℚ) :
    ∀ l : List α, (∀ x ∈ l, 0 ≤ f x) → 0 ≤ (l.map f).sum := by
  intro l
  induction l with
  | nil => intro _; simp
  | cons x xs ih =>
    intro h
    rw [List.map_cons, List.sum_cons]
    have hx := h x (List.mem_cons_self x xs)
    have hxs := ih fun y hy => h y (List.mem_cons_of_mem x hy)
    linarith

/-- A mapped sum of positive values over a nonempty list is positive. -/
theorem sum_map_pos (f : α → ℚ) :
    ∀ l : List α, l ≠ [] → (∀ x ∈ l, 0 < f x) → 0 < (l.map f).sum := by
  intro l
  cases l with
  | nil => intro h; exact absurd rfl h
  | cons x xs =>
    intro _ h
    rw [List.map_cons, List.sum_cons]
    have hx := h x (List.mem_cons_self x xs)
    have hxs := sum_map_nonneg f xs fun y hy => le_of_lt (h y (List.mem_cons_of_mem x hy))
    linarith

/-- Every yearly total of a dataset satisfying the transaction invariants is
positive: each yearly group is nonempty and sums positive row totals. -/
theorem yearlyTotals_snd_pos (df : List Txn)
    (hinv : ∀ t ∈ df, 0 < t.quantity ∧ 0 < t.unitPrice ∧
      t.totalSales = (t.quantity : ℚ) * t.unitPrice) :
    ∀ p ∈ yearlyTotals df, 0 < p.2 := by
  intro p hp
  unfold yearlyTotals groupTotals at hp
  obtain ⟨k, hk, rfl⟩ := List.mem_map.mp hp
  obtain ⟨t, ht, hkt⟩ :=
    List.mem_map.mp ((mem_groupKeys (fun t => dateYear t.orderDate) df k).mp hk)
  have htf : t ∈ df.filter fun t => decide (dateYear t.orderDate = k) := by
    rw [List.mem_filter]
    exact ⟨ht, by simp [hkt]⟩
  unfold totalRevenue
  refine sum_map_pos _ _ ?_ ?_
  · intro h
    rw [h] at htf
    exact List.not_mem_nil t htf
  · intro x hx
    obtain ⟨hxdf, _⟩ := List.mem_filter.mp hx
    obtain ⟨hq, hpr, htot⟩ := hinv x hxdf
    rw [htot]
    have hq' : (0 : ℚ) < (x.quantity : ℚ) := by exact_mod_cast hq
    exact mul_pos hq' hpr

/-- The yearly totals are listed in strictly ascending year order. -/
theorem yearlyTotals_keys_sorted (df : List Txn) :
    (yearlyTotals df).Pairwise fun p q => p.1 < q.1 := by
  unfold yearlyTotals groupTotals
  rw [List.pairwise_map]
  exact groupKeys_sorted (fun t => dateYear t.orderDate) df

/-- C5: over a filtered dataset satisfying the transaction invariants, the
growth analysis (source lines 201-209) returns the insufficient-data
sentinel when fewer than two yearly groups exist, and otherwise the value
`(latest - previous) / previous * 100` where `previous` is the
second-most-recent year's total; that previous total is always positive
(each yearly group sums positive row totals over a nonempty group), so a
zero denominator never arises on reachable data. -/
theorem yoy_growth_spec (df : List Txn)
    (hinv : ∀ t ∈ df, 0 < t.quantity ∧ 0 < t.unitPrice ∧
      t.totalSales = (t.quantity : ℚ) * t.unitPrice) :
    ((yearlyTotals df).length < 2 → yoyGrowth df = none) ∧
    (∀ a b tl, (yearlyTotals df).reverse = a :: b :: tl →
      0 < b.2 ∧ b.1 < a.1 ∧ yoyGrowth df = some ((a.2 - b.2) / b.2 * 100)) := by
  constructor
  · intro hlen
    unfold yoyGrowth
    cases hrev : (yearlyTotals df).reverse with
    | nil => rfl
    | cons a tl =>
      cases tl with
      | nil => rfl
      | cons b tl' =>
        exfalso
        have : (yearlyTotals df).length = tl'.length + 2 := by
          rw [← List.length_reverse, hrev]
          simp
        omega
  · intro a b tl hrev
    have hb : b ∈ yearlyTotals df := by
      have : b ∈ (yearlyTotals df).reverse := by
        rw [hrev]
        exact List.mem_cons_of_mem a (List.mem_cons_self b tl)
      exact List.mem_reverse.mp this
    refine ⟨yearlyTotals_snd_pos df hinv b hb, ?_, ?_⟩
    · have hrevpw : ((yearlyTotals df).reverse).Pairwise fun p q => q.1 < p.1 :=
        List.pairwise_reverse.mpr (yearlyTotals_keys_sorted df)
      rw [hrev] at hrevpw
      exact (List.pairwise_cons.mp hrevpw).1 b (List.mem_cons_self b tl)
    · unfold yoyGrowth
      rw [hrev]

/-- The two-year example dataset satisfies the transaction invariants. -/
theorem dsYears_inv :
    ∀ t ∈ dsYears, 0 < t.quantity ∧ 0 < t.unitPrice ∧
      t.totalSales = (t.quantity : ℚ) * t.unitPrice := by
  intro t ht
  rcases List.mem_cons.mp ht with rfl | ht
  · refine ⟨by norm_num [txn2022], by norm_num [txn2022], by norm_num [txn2022]⟩
  rcases List.mem_cons.mp ht with rfl | ht
  · refine ⟨by norm_num [txn2023], by norm_num [txn2023], by norm_num [txn2023]⟩
  exact absurd ht (List.not_mem_nil t)

/-- The yearly totals of the two-year example dataset, most recent first. -/
theorem dsYears_yearlyTotals :
    (yearlyTotals dsYears).reverse = [((2023 : Nat), (130000 : ℚ)), (2022, 100000)] := by
  norm_num [yearlyTotals, groupTotals, groupKeys, dropDuplicates, dropDupsFrom,
    sortAsc, insertAsc, totalRevenue, dsYears, txn2022, txn2023, dateYear,
    List.filter_cons, List.filter_nil]

/-- C5 witness: the spec's worked example — yearly totals 100000 (2022) and
130000 (2023) give growth `(130000 - 100000) / 100000 * 100`. -/
theorem yoy_growth_spec_witness :
    (0 : ℚ) < 100000 ∧ (2022 : Nat) < 2023 ∧
      yoyGrowth dsYears = some (((130000 : ℚ) - 100000) / 100000 * 100) :=
  (yoy_growth_spec dsYears dsYears_inv).2 (2023, 130000) (2022, 100000) []
    dsYears_yearlyTotals

/-- Membership under descending insertion. -/
theorem mem_insertDesc [LinearOrder κ] (z x : κ × ℚ) :
    ∀ l : List (κ × ℚ), z ∈ insertDesc x l ↔ z = x ∨ z ∈ l := by
  intro l
  induction l with
  | nil => simp [insertDesc]
  | cons y ys ih =>
    rw [insertDesc]
    split
    · simp
    · simp only [List.mem_cons, ih]
      tauto

/-- Descending insertion adds one element to the length. -/
theorem length_insertDesc [LinearOrder κ] (x : κ × ℚ) :
    ∀ l : List (κ × ℚ), (insertDesc x l).length = l.length + 1 := by
  intro l
  induction l with
  | nil => rfl
  | cons y ys ih =>
    rw [insertDesc]
    split
    · rfl
    · simp [ih]

/-- The stable descending sort preserves length. -/
theorem length_sortDesc [LinearOrder κ] :
    ∀ l : List (κ × ℚ), (sortDesc l).length = l.length := by
  intro l
  induction l with
  | nil => rfl
  | cons x xs ih =>
    rw [sortDesc, length_insertDesc, ih, List.length_cons]

/-- The stable descending sort preserves the element set. -/
theorem mem_sortDesc [LinearOrder κ] (z : κ × ℚ) :
    ∀ l : List (κ × ℚ), z ∈ sortDesc l ↔ z ∈ l := by
  intro l
  induction l with
  | nil => simp [sortDesc]
  | cons x xs ih =>
    rw [sortDesc, mem_insertDesc, ih, List.mem_cons]

/-- Inserting an element whose key is below every key of a list that is
sorted descending by measure with measure-ties ascending by key keeps the
list sorted in that order: the new element goes before the tied elements,
which all carry larger keys. -/
theorem insertDesc_pairwise [LinearOrder κ] (x : κ × ℚ) :
    ∀ l : List (κ × ℚ),
      l.Pairwise (fun a b => b.2 < a.2 ∨ (a.2 = b.2 ∧ a.1 < b.1)) →
      (∀ y ∈ l, x.1 < y.1) →
      (insertDesc x l).Pairwise (fun a b => b.2 < a.2 ∨ (a.2 = b.2 ∧ a.1 < b.1)) := by
  intro l
  induction l with
  | nil => intro _ _; simp [insertDesc]
  | cons y ys ih =>
    intro hp hkey
    obtain ⟨hy, hys⟩ := List.pairwise_cons.mp hp
    rw [insertDesc]
    split
    · rename_i hyx
      refine List.pairwise_cons.mpr ⟨?_, hp⟩
      intro z hz
      rcases List.mem_cons.mp hz with rfl | hz
      · rcases lt_or_eq_of_le hyx with hlt | heq
        · exact Or.inl hlt
        · exact Or.inr ⟨heq.symm, hkey z (List.mem_cons_self z ys)⟩
      · rcases hy z hz with hlt | ⟨heq, _⟩
        · exact Or.inl (lt_of_lt_of_le hlt hyx)
        · rcases lt_or_eq_of_le hyx with hlt' | heq'
          · refine Or.inl ?_
            rw [← heq]
            exact hlt'
          · exact Or.inr ⟨heq'.symm.trans heq, hkey z (List.mem_cons_of_mem y hz)⟩
    · rename_i hyx
      refine List.pairwise_cons.mpr ⟨?_, ih hys fun z hz => hkey z (List.mem_cons_of_mem y hz)⟩
      intro z hz
      rcases (mem_insertDesc z x ys).mp hz with rfl | hz
      · exact Or.inl (lt_of_not_le hyx)
      · exact hy z hz

/-- The stable descending sort of a view with strictly ascending keys is
sorted descending by measure with ties ascending by key. -/
theorem sortDesc_pairwise [LinearOrder κ] :
    ∀ l : List (κ × ℚ), l.Pairwise (fun a b => a.1 < b.1) →
      (sortDesc l).Pairwise (fun a b => b.2 < a.2 ∨ (a.2 = b.2 ∧ a.1 < b.1)) := by
  intro l
  induction l with
  | nil => intro _; simp [sortDesc]
  | cons x xs ih =>
    intro hp
    obtain ⟨hx, hxs⟩ := List.pairwise_cons.mp hp
    rw [sortDesc]
    refine insertDesc_pairwise x (sortDesc xs) (ih hxs) ?_
    intro y hy
    exact hx y ((mem_sortDesc y xs).mp hy)

/-- C6: on an aggregate view with strictly ascending group keys (the shape
`groupby` produces) and `n` not exceeding the group count, `nlargest`
(source line 155) returns exactly `n` groups, sorted descending by the
measure with ties broken by ascending group key. -/
theorem top_n_spec [LinearOrder κ] (view : List (κ × ℚ)) (n : Nat)
    (hkeys : view.Pairwise fun a b => a.1 < b.1) (hn : n ≤ view.length) :
    (nlargest n view).length = n ∧
      (nlargest n view).Pairwise fun a b => b.2 < a.2 ∨ (a.2 = b.2 ∧ a.1 < b.1) := by
  constructor
  · rw [nlargest, List.length_take, length_sortDesc]
    exact Nat.min_eq_left hn
  · exact List.Pairwise.sublist (List.take_sublist n _) (sortDesc_pairwise view hkeys)

/-- C6 witness: the concrete tied view — measures 5, 9, 5 — gives the top two
groups in descending measure order with the tie resolved by key order. -/
theorem top_n_spec_witness :
    (nlargest 2 viewTie).length = 2 ∧
      (nlargest 2 viewTie).Pairwise fun a b => b.2 < a.2 ∨ (a.2 = b.2 ∧ a.1 < b.1) :=
  top_n_spec viewTie 2 (by decide) (by decide)

/-- C9 counterexample: the export of a concrete filtered dataset has a
header row of ten columns, including the derived temporal column `Year`;
the claimed six-column layout with no other columns is false
(source line 219 exports every column of the frame, including the four
columns added at lines 55-58). -/
theorem to_csv_columns_counterexample :
    (toCsvTable dsAB).headI = csvHeader ∧ csvHeader.length = 10 ∧
      "Year" ∈ csvHeader ∧ csvHeader.length ≠ 6 := by
  refine ⟨rfl, rfl, ?_, by decide⟩
  refine List.mem_cons_of_mem _ (List.mem_cons_of_mem _ (List.mem_cons_of_mem _
    (List.mem_cons_of_mem _ (List.mem_cons_of_mem _ (List.mem_cons_of_mem _
    (List.mem_cons_of_mem _ (List.mem_cons_self _ _)))))))

/-- C9 (amended): the export produces the header row first, then exactly one
row per transaction in dataset order; every row has the same fixed
ten-column layout — the six base columns `OrderDate, ProductCategory,
ProductName, Quantity, UnitPrice, TotalSales` followed by the derived
temporal columns `YearMonth, Year, Month, MonthName` — and the output is a
pure function of the filtered input, hence deterministic. -/
theorem to_csv_structure (df : List Txn) :
    (toCsvTable df).length = df.length + 1 ∧
      (toCsvTable df).headI = csvHeader ∧
      (∀ r ∈ toCsvTable df, r.length = csvHeader.length) ∧
      (∀ i : Nat, i < df.length → (toCsvTable df)[i + 1]? = (df[i]?).map txnRow) := by
  refine ⟨by simp [toCsvTable], rfl, ?_, ?_⟩
  · intro r hr
    rcases List.mem_cons.mp hr with rfl | hr
    · rfl
    · obtain ⟨t, _, rfl⟩ := List.mem_map.mp hr
      rfl
  · intro i _
    rw [toCsvTable, List.getElem?_cons_succ, List.getElem?_map]

/-- C9 witness: the amended export structure at a concrete dataset. -/
theorem to_csv_structure_witness :
    (toCsvTable dsAB).length = dsAB.length + 1 ∧
      (toCsvTable dsAB)[0 + 1]? = (dsAB[0]?).map txnRow :=
  ⟨(to_csv_structure dsAB).1, (to_csv_structure dsAB).2.2.2 0 (by decide)⟩

end SalesAnalysis
